import Mathlib

/-
Verification of the WEAT test engine of `compute_weat.py` (class `Test`).

The embedding models:
  * `Test.similarities`      — the cosine-similarity matrix `cosine_similarity(XY, AB)`,
  * `Test.calc_s_AB`/`s_wAB` — the per-item association vector,
  * `Test.s_XAB`/`s_XYAB`    — the aggregate statistics,
  * `Test.p` (non-parametric and parametric branches),
  * `Test.effect_size`,
  * `Test.run` (randomized and plain).

Numbers are modelled in a linear ordered field (instantiated at `ℚ` for decidable
witnesses and at `ℝ` for the parts that need square roots).  External library calls
(`sklearn.cosine_similarity`'s kernel, `scipy.stats.norm.sf`, `scipy.stats.shapiro`)
are passed in as function parameters; `np.random.shuffle` results are passed in as an
explicit list of drawn index permutations, one per loop iteration of the source.
-/

namespace Weat

variable {F : Type} [LinearOrderedField F]

/-- Arithmetic mean of a list, `np.mean` / `ndarray.mean`: sum divided by length. -/
def mean (l : List F) : F := l.sum / l.length

/-- Dot product of two vectors (`numpy` inner product on equal-length rows). -/
def dotp (x y : List ℝ) : ℝ := (List.zipWith (· * ·) x y).sum

/-- The kernel of `sklearn.metrics.pairwise.cosine_similarity`:
`⟨x, y⟩ / (‖x‖ ‖y‖)`. -/
noncomputable def cosineSim (x y : List ℝ) : ℝ :=
  dotp x y / (Real.sqrt (dotp x x) * Real.sqrt (dotp y y))

/-- The state of a `Test` instance (`Test.__init__` stores `X, Y, A, B` and
`reset_calc` caches `similarity_matrix` and `s_AB`). -/
@[ext]
structure Test (F : Type) where
  X : List (List F)
  Y : List (List F)
  A : List (List F)
  B : List (List F)
  similarity_matrix : List (List F)
  s_AB : List F

/-- `Test.similarities`: `cosine_similarity(np.concatenate((X, Y)), np.concatenate((A, B)))`,
with the pairwise kernel `k` a parameter (the source uses `cosineSim`). -/
def similarities (k : List F → List F → F) (X Y A B : List (List F)) : List (List F) :=
  (X ++ Y).map (fun w => (A ++ B).map (fun a => k w a))

/-- One row of the association computation: mean similarity to the first `nA`
columns minus mean similarity to the remaining columns
(`matrix[w, :|A|].mean(axis=1) - matrix[w, |A|:].mean(axis=1)` for one `w`). -/
def assocRow (nA : ℕ) (row : List F) : F := mean (row.take nA) - mean (row.drop nA)

/-- `Test.s_wAB(w)`: the association scores of the rows indexed by `w`. -/
def s_wAB (nA : ℕ) (M : List (List F)) (w : List ℕ) : List F :=
  w.map (fun i => assocRow nA (M.getD i []))

/-- `Test.calc_s_AB`: `s_AB = s_wAB(np.arange(similarity_matrix.shape[0]))`. -/
def calc_s_AB (nA : ℕ) (M : List (List F)) : List F :=
  s_wAB nA M (List.range M.length)

/-- `Test.reset_calc`: recompute `similarity_matrix` and `s_AB` from the current
`X, Y, A, B`. -/
def Test.reset_calc (k : List F → List F → F) (t : Test F) : Test F :=
  let M := similarities k t.X t.Y t.A t.B
  { t with similarity_matrix := M, s_AB := calc_s_AB t.A.length M }

/-- `Test.__init__`: store the four sets and run `reset_calc`. -/
def Test.make (k : List F → List F → F) (X Y A B : List (List F)) : Test F :=
  Test.reset_calc k { X := X, Y := Y, A := A, B := B, similarity_matrix := [], s_AB := [] }

/-- Fancy-indexed sum `vec[mask].sum()` (missing indices default to `0`;
the source only ever indexes in range). -/
def maskSum (vec : List F) (mask : List ℕ) : F := (mask.map (fun i => vec.getD i 0)).sum

/-- `Test.s_XAB(mask) = s_AB[mask].sum()`. -/
def Test.s_XAB (t : Test F) (mask : List ℕ) : F := maskSum t.s_AB mask

/-- `Test.s_XYAB(X, Y) = s_XAB(X) - s_XAB(Y)`. -/
def Test.s_XYAB (t : Test F) (Xm Ym : List ℕ) : F := t.s_XAB Xm - t.s_XAB Ym

/-- The observed statistic of the non-parametric test:
`s = s_XAB(np.arange(X.shape[0]))`. -/
def Test.observed_s (t : Test F) : F := t.s_XAB (List.range t.X.length)

/-- One iteration of the counting loops of the non-parametric `Test.p`: the state is
`(total_true, total_equal, total)`; `total_true` is incremented when `si > s`, and both
`total_true` and `total_equal` when `si == s` (the conservative tie rule). -/
def Test.tally (t : Test F) (s : F) (acc : ℕ × ℕ × ℕ) (Xi : List ℕ) : ℕ × ℕ × ℕ :=
  let si := t.s_XAB Xi
  if si > s then (acc.1 + 1, acc.2.1, acc.2.2 + 1)
  else if si = s then (acc.1 + 1, acc.2.1 + 1, acc.2.2 + 1)
  else (acc.1, acc.2.1, acc.2.2 + 1)

/-- `itertools.combinations(np.arange(N), k)`: all size-`k` increasing index lists
drawn from `{0, …, N-1}` (each size-`k` combination appears exactly once). -/
def combs (N k : ℕ) : List (List ℕ) := (List.range N).sublistsLen k

/-- The non-parametric branch of `Test.p` (`parametric=False`).
`draws` is the stream of `np.random.shuffle(np.arange(2n))` results consumed by the
sampling loop, one per iteration; the source draws `n_samples - 1` of them.
The binomial coefficient is written here as the exact `Nat.choose`; the source
computes it as `int(scipy.special.binom(2n, n))` in `float64`.
`none` models the failure of `assert X.shape[0] == Y.shape[0]`. -/
def Test.p_nonparametric (t : Test F) (n_samples : ℕ) (draws : List (List ℕ)) : Option F :=
  if t.X.length = t.Y.length then
    let size := t.X.length
    let s := t.s_XAB (List.range size)
    let num_partitions := Nat.choose (2 * size) size
    if num_partitions > n_samples then
      let c := (draws.map (fun a => a.take size)).foldl (t.tally s) (1, 0, 1)
      some ((c.1 : F) / (c.2.2 : F))
    else
      let c := (combs (2 * size) size).foldl (t.tally s) (0, 0, 0)
      some ((c.1 : F) / (c.2.2 : F))
  else none

/-- `np.std(l, ddof=1)`: square root of the sum of squared deviations from the mean,
divided by `N - 1`. -/
noncomputable def sampleStd (l : List ℝ) : ℝ :=
  Real.sqrt ((l.map (fun x => (x - mean l) ^ 2)).sum / ((l.length : ℝ) - 1))

/-- The parametric branch of `Test.p` (`parametric=True`).
`sf` models `scipy.stats.norm.sf` (arguments: value, loc, scale) and `shapiro` models
`scipy.stats.shapiro` (returned statistic and p-value are only logged by the source).
`draws` is the stream of shuffled index arrays, one per loop iteration
(the source draws `n_samples` of them). -/
noncomputable def Test.p_parametric (t : Test ℝ) (sf : ℝ → ℝ → ℝ → ℝ)
    (shapiro : List ℝ → ℝ × ℝ) (draws : List (List ℕ)) : Option ℝ :=
  if t.X.length = t.Y.length then
    let size := t.X.length
    let s := t.s_XYAB (List.range size) (List.range' size t.Y.length)
    let samples := draws.map (fun a => t.s_XYAB (a.take size) (a.drop size))
    let _diagnostic := shapiro samples
    some (sf s (mean samples) (sampleStd samples))
  else none

/-- The numerator of `Test.effect_size`:
`mean(s_wAB(arange(|X|))) - mean(s_wAB(arange(|X|, rows)))`. -/
noncomputable def Test.effect_size_num (t : Test ℝ) : ℝ :=
  mean (s_wAB t.A.length t.similarity_matrix (List.range t.X.length)) -
    mean (s_wAB t.A.length t.similarity_matrix
      (List.range' t.X.length (t.similarity_matrix.length - t.X.length)))

/-- `Test.effect_size`: the standardized mean difference, dividing by
`np.std(s_AB, ddof=1)` with no guard against a zero denominator. -/
noncomputable def Test.effect_size (t : Test ℝ) : ℝ :=
  t.effect_size_num / sampleStd t.s_AB

/-- `Test.run`: with `randomized=True`, pool all four sets, reslice the shuffled pool
`D` into new `X, Y, A, B` (the shuffled pool `D` is the parameter `shuffled`), call
`reset_calc`, compute `p` and `effect_size`, then restore the original four sets and
`reset_calc` again.  Returns the result pair together with the final instance state.
`none` propagates the assertion failure of `p` (in which case the source raises
before restoring). -/
noncomputable def Test.run (k : List ℝ → List ℝ → ℝ) (t : Test ℝ) (randomized : Bool)
    (shuffled : List (List ℝ)) (n_samples : ℕ) (draws : List (List ℕ)) :
    Option ((ℝ × ℝ) × Test ℝ) :=
  if randomized then
    let nX := t.X.length
    let nA := t.A.length
    let t1 := Test.reset_calc k { t with
      X := shuffled.take nX
      Y := (shuffled.drop nX).take nX
      A := (shuffled.drop (2 * nX)).take nA
      B := shuffled.drop (2 * nX + nA) }
    match t1.p_nonparametric n_samples draws with
    | none => none
    | some pv =>
      some ((t1.effect_size, pv),
        Test.reset_calc k { t1 with X := t.X, Y := t.Y, A := t.A, B := t.B })
  else
    match t.p_nonparametric n_samples draws with
    | none => none
    | some pv => some ((t.effect_size, pv), t)

/-- The invariant maintained by `reset_calc`: the cached `similarity_matrix` and `s_AB`
agree with the current `X, Y, A, B`. -/
def Test.WellFormed (k : List F → List F → F) (t : Test F) : Prop :=
  t.similarity_matrix = similarities k t.X t.Y t.A t.B ∧
    t.s_AB = calc_s_AB t.A.length t.similarity_matrix

/-- Consistency check on the stacked rows fed to `cosine_similarity`: a positive
common feature dimension. -/
def dimsOK (rows : List (List F)) : Bool :=
  decide (0 < (rows.headD []).length) &&
    rows.all (fun r => r.length = (rows.headD []).length)

/-- Model of the `cosine_similarity(XY, AB)` call including its failure modes:
`sklearn` raises `ValueError` (here `none`) when either stacked input has zero rows
or when the rows do not share one positive feature dimension. -/
def similaritiesChecked (k : List F → List F → F) (X Y A B : List (List F)) :
    Option (List (List F)) :=
  if !(X ++ Y).isEmpty && !(A ++ B).isEmpty && dimsOK (X ++ Y ++ A ++ B) then
    some (similarities k X Y A B)
  else none

/-- `Test.__init__` with the failure modes of the similarity computation surfaced:
construction fails (`none`) exactly when `cosine_similarity` raises. -/
def Test.makeChecked (k : List F → List F → F) (X Y A B : List (List F)) :
    Option (Test F) :=
  (similaritiesChecked k X Y A B).map fun M =>
    { X := X, Y := Y, A := A, B := B, similarity_matrix := M,
      s_AB := calc_s_AB A.length M }

/-- Number of enumerated partitions with statistic strictly above the observed one. -/
def Test.countGt (t : Test F) (n : ℕ) : ℕ :=
  (combs (2 * n) n).countP (fun Xi => decide (t.observed_s < t.s_XAB Xi))

/-- Number of enumerated partitions whose statistic ties the observed one. -/
def Test.countEq (t : Test F) (n : ℕ) : ℕ :=
  (combs (2 * n) n).countP (fun Xi => decide (t.s_XAB Xi = t.observed_s))

/-- Unrolling the counting loops of `Test.p`: starting from counters `(a, b, c)`, the
loop adds the number of iterates with `si > s` or `si == s` to `total_true`, the number
with `si == s` to `total_equal`, and the number of iterates to `total`. -/
theorem foldl_tally (t : Test F) (s : F) (L : List (List ℕ)) (a b c : ℕ) :
    L.foldl (t.tally s) (a, b, c) =
      (a + L.countP (fun Xi => decide (s < t.s_XAB Xi ∨ t.s_XAB Xi = s)),
       b + L.countP (fun Xi => decide (t.s_XAB Xi = s)),
       c + L.length) := by
  induction L generalizing a b c with
  | nil => simp
  | cons hd tl ih =>
    rw [List.foldl_cons]
    simp only [Test.tally]
    by_cases h1 : t.s_XAB hd > s
    · rw [if_pos h1, ih]
      have hne : t.s_XAB hd ≠ s := ne_of_gt h1
      simp only [List.countP_cons, List.length_cons, Prod.mk.injEq]
      refine ⟨?_, ?_, ?_⟩
      · simp only [h1, hne, decide_eq_true_eq]
        simp; omega
      · simp [hne]
      · omega
    · rw [if_neg h1]
      by_cases h2 : t.s_XAB hd = s
      · rw [if_pos h2, ih]
        simp only [List.countP_cons, List.length_cons, Prod.mk.injEq]
        refine ⟨?_, ?_, ?_⟩
        · simp [h2]; omega
        · simp [h2]; omega
        · omega
      · rw [if_neg h2, ih]
        have hor : ¬(s < t.s_XAB hd ∨ t.s_XAB hd = s) := by
          rintro (h | h) <;> [exact h1 h; exact h2 h]
        simp only [List.countP_cons, List.length_cons, Prod.mk.injEq]
        refine ⟨?_, ?_, ?_⟩
        · simp [hor]
        · simp [h2]
        · omega

/-- Counting the `>`-or-`==` disjunction splits into the two disjoint counts. -/
theorem countP_gtEq_split (t : Test F) (s : F) (L : List (List ℕ)) :
    L.countP (fun Xi => decide (s < t.s_XAB Xi ∨ t.s_XAB Xi = s)) =
      L.countP (fun Xi => decide (s < t.s_XAB Xi)) +
        L.countP (fun Xi => decide (t.s_XAB Xi = s)) := by
  induction L with
  | nil => simp
  | cons hd tl ih =>
    rw [List.countP_cons, List.countP_cons, List.countP_cons, ih]
    by_cases hf : s < t.s_XAB hd
    · have hg : t.s_XAB hd ≠ s := hf.ne'
      simp [hf, hg]; omega
    · by_cases hg : t.s_XAB hd = s
      · simp [hf, hg]; omega
      · simp [hf, hg]

/-- C1: in the exact branch (`C(2n, n) ≤ n_samples`), the non-parametric `Test.p`
enumerates every size-`n` combination of the pooled `2n` indices, counts those with
`si > s` plus those with `si == s`, and returns that count divided by `C(2n, n)`. -/
theorem p_exact_enumeration (t : Test F) (n n_samples : ℕ) (draws : List (List ℕ))
    (hX : t.X.length = n) (hY : t.Y.length = n)
    (hbranch : Nat.choose (2 * n) n ≤ n_samples) :
    t.p_nonparametric n_samples draws =
      some (((t.countGt n + t.countEq n : ℕ) : F) / ((Nat.choose (2 * n) n : ℕ) : F)) ∧
    ∀ Xi : List ℕ, Xi ∈ combs (2 * n) n ↔ List.Sublist Xi (List.range (2 * n)) ∧ Xi.length = n := by
  constructor
  · rw [Test.p_nonparametric, if_pos (hX.trans hY.symm)]
    simp only [hX]
    rw [if_neg (Nat.not_lt.mpr hbranch), foldl_tally]
    simp only [Test.countGt, Test.countEq, Test.observed_s, hX, Nat.zero_add,
      countP_gtEq_split, combs, List.length_sublistsLen, List.length_range]
  · intro Xi
    rw [combs]
    exact List.mem_sublistsLen

/-- C2: in the sampling branch (`C(2n, n) > n_samples`), the counters are seeded at 1
for the observed partition, each of the `n_samples - 1` drawn shuffles contributes its
first `n` indices as `Xi` and is counted under the same `>`-or-`==` rule, and the
returned p-value is that count divided by `n_samples`. -/
theorem p_sampling_seeded (t : Test F) (n n_samples : ℕ) (draws : List (List ℕ))
    (hX : t.X.length = n) (hY : t.Y.length = n)
    (hbranch : n_samples < Nat.choose (2 * n) n)
    (hcount : draws.length = n_samples - 1) (hpos : 1 ≤ n_samples)
    (hshuffle : ∀ a ∈ draws, a.Perm (List.range (2 * n))) :
    t.p_nonparametric n_samples draws =
      some (((1 + (draws.map (fun a => a.take n)).countP
          (fun Xi => decide (t.observed_s < t.s_XAB Xi ∨ t.s_XAB Xi = t.observed_s)) : ℕ) : F) /
        (n_samples : F)) := by
  rw [Test.p_nonparametric, if_pos (hX.trans hY.symm)]
  simp only [hX]
  rw [if_pos hbranch, foldl_tally]
  have hlen : 1 + (draws.map (fun a => a.take n)).length = n_samples := by
    simp [List.length_map, hcount]; omega
  simp only [Test.observed_s, hX, hlen]

/-- C10: for `n_samples ≥ 1` the non-parametric p-value is strictly positive and at
least `1 / max(C(2n, n), n_samples)`: the observed partition is always counted, either
through the equality tie rule (exact branch) or through the seed of 1 (sampling
branch). -/
theorem p_strictly_positive (t : Test F) (n n_samples : ℕ) (draws : List (List ℕ))
    (hX : t.X.length = n) (hY : t.Y.length = n) (hpos : 1 ≤ n_samples)
    (hcount : n_samples < Nat.choose (2 * n) n → draws.length = n_samples - 1) :
    ∃ r : F, t.p_nonparametric n_samples draws = some r ∧ 0 < r ∧
      1 / ((max (Nat.choose (2 * n) n) n_samples : ℕ) : F) ≤ r := by
  rw [Test.p_nonparametric, if_pos (hX.trans hY.symm)]
  simp only [hX]
  by_cases hb : Nat.choose (2 * n) n > n_samples
  · rw [if_pos hb, foldl_tally]
    dsimp only
    have hlen : 1 + (draws.map (fun a => a.take n)).length = n_samples := by
      simp only [List.length_map, hcount hb]; omega
    rw [hlen]
    refine ⟨_, rfl, ?_, ?_⟩
    · apply div_pos
      · exact_mod_cast Nat.lt_of_lt_of_le Nat.zero_lt_one (Nat.le_add_right 1 _)
      · exact_mod_cast hpos
    · have hmax : max (Nat.choose (2 * n) n) n_samples = Nat.choose (2 * n) n :=
        max_eq_left (le_of_lt hb)
      rw [hmax]
      have hns : (0 : F) < (n_samples : F) := by exact_mod_cast hpos
      have hc : (0 : F) < ((Nat.choose (2 * n) n : ℕ) : F) := by
        exact_mod_cast Nat.choose_pos (show n ≤ 2 * n by omega)
      calc (1 : F) / ((Nat.choose (2 * n) n : ℕ) : F)
          ≤ 1 / (n_samples : F) := by
            apply one_div_le_one_div_of_le hns
            exact_mod_cast le_of_lt hb
        _ ≤ _ := by
            rw [div_le_div_right hns]
            exact_mod_cast Nat.le_add_right 1 _
  · rw [if_neg hb, foldl_tally]
    dsimp only
    have hclen : 0 + (combs (2 * n) n).length = Nat.choose (2 * n) n := by
      simp [combs, List.length_sublistsLen, List.length_range]
    rw [hclen, Nat.zero_add]
    have hcc : 0 < Nat.choose (2 * n) n := Nat.choose_pos (by omega)
    have hmem : List.range n ∈ combs (2 * n) n := by
      rw [combs, List.mem_sublistsLen]
      exact ⟨List.range_sublist.mpr (by omega), List.length_range n⟩
    have hcnt : 0 < (combs (2 * n) n).countP
        (fun Xi => decide (t.s_XAB (List.range n) < t.s_XAB Xi ∨
          t.s_XAB Xi = t.s_XAB (List.range n))) := by
      rw [List.countP_pos_iff]
      exact ⟨List.range n, hmem, by simp⟩
    have hc : (0 : F) < ((Nat.choose (2 * n) n : ℕ) : F) := by exact_mod_cast hcc
    refine ⟨_, rfl, ?_, ?_⟩
    · exact div_pos (by exact_mod_cast hcnt) hc
    · have hmax : max (Nat.choose (2 * n) n) n_samples = n_samples :=
        max_eq_right (Nat.not_lt.mp hb)
      rw [hmax]
      have hns : (0 : F) < (n_samples : F) := by exact_mod_cast hpos
      calc (1 : F) / (n_samples : F)
          ≤ 1 / ((Nat.choose (2 * n) n : ℕ) : F) := by
            apply one_div_le_one_div_of_le hc
            exact_mod_cast Nat.not_lt.mp hb
        _ ≤ _ := by
            rw [div_le_div_right hc]
            exact_mod_cast hcnt

/-- C4: the parametric `Test.p` computes the observed `s_XYAB(X, Y)`, maps each of the
`n_samples` drawn bipartitions to `s_XYAB(Xi, Yi)`, and returns the normal survival
function at the observed statistic with the sample mean and sample standard deviation
(`ddof=1`) of those values; the Shapiro-Wilk diagnostic has no effect on the result. -/
theorem p_parametric_normal (t : Test ℝ) (sf : ℝ → ℝ → ℝ → ℝ)
    (shapiro1 shapiro2 : List ℝ → ℝ × ℝ) (draws : List (List ℕ)) (n n_samples : ℕ)
    (hX : t.X.length = n) (hY : t.Y.length = n) (hdraws : draws.length = n_samples) :
    t.p_parametric sf shapiro1 draws =
      some (sf (t.s_XYAB (List.range n) (List.range' n n))
        (mean (draws.map (fun a => t.s_XYAB (a.take n) (a.drop n))))
        (sampleStd (draws.map (fun a => t.s_XYAB (a.take n) (a.drop n))))) ∧
    t.p_parametric sf shapiro1 draws = t.p_parametric sf shapiro2 draws := by
  constructor
  · rw [Test.p_parametric, if_pos (hX.trans hY.symm)]
    simp only [hX, hY]
  · rfl

/-- The concrete §8 scenario: `X = [[1,0],[0,1]]`, `Y = [[-1,0],[0,-1]]`,
`A = [[1,0]]`, `B = [[-1,0]]`, embedded through the actual cosine kernel. -/
noncomputable def testConcrete : Test ℝ :=
  Test.make cosineSim [[1, 0], [0, 1]] [[-1, 0], [0, -1]] [[1, 0]] [[-1, 0]]

/-- The cosine-similarity matrix of the concrete scenario. -/
theorem testConcrete_matrix : testConcrete.similarity_matrix =
    [[1, -1], [0, 0], [-1, 1], [0, 0]] := by
  show similarities cosineSim [[(1:ℝ), 0], [0, 1]] [[-1, 0], [0, -1]] [[1, 0]] [[-1, 0]] =
    [[1, -1], [0, 0], [-1, 1], [0, 0]]
  simp only [similarities, cosineSim, dotp, List.cons_append, List.nil_append, List.map_cons,
    List.map_nil, List.zipWith_cons_cons, List.zipWith_nil_right, List.sum_cons, List.sum_nil]
  norm_num [Real.sqrt_one]

/-- The association vector of the concrete scenario. -/
theorem testConcrete_s_AB : testConcrete.s_AB = [2, 0, -2, 0] := by
  have h : testConcrete.s_AB = calc_s_AB 1 testConcrete.similarity_matrix := rfl
  rw [h, testConcrete_matrix]
  simp only [calc_s_AB, s_wAB, assocRow, mean]
  norm_num [List.range_succ]

/-- The non-parametric p-value of the concrete scenario: 2 of the 6 partitions tie the
observed statistic and none exceeds it. -/
theorem testConcrete_p (n_samples : ℕ) (draws : List (List ℕ)) (h6 : 6 ≤ n_samples) :
    testConcrete.p_nonparametric n_samples draws = some (2 / 6 : ℝ) := by
  rw [Test.p_nonparametric]
  have hguard : testConcrete.X.length = testConcrete.Y.length := rfl
  rw [if_pos hguard]
  have hXlen : testConcrete.X.length = 2 := rfl
  simp only [hXlen]
  have hnb : ¬(Nat.choose (2 * 2) 2 > n_samples) := by
    have : Nat.choose (2 * 2) 2 = 6 := by decide
    omega
  rw [if_neg hnb]
  have hc : combs (2 * 2) 2 = [[2, 3], [1, 3], [1, 2], [0, 3], [0, 2], [0, 1]] := by decide
  rw [hc]
  have g0 : ([2, 0, -2, 0] : List ℝ).getD 0 0 = 2 := rfl
  have g1 : ([2, 0, -2, 0] : List ℝ).getD 1 0 = 0 := rfl
  have g2 : ([2, 0, -2, 0] : List ℝ).getD 2 0 = -2 := rfl
  have g3 : ([2, 0, -2, 0] : List ℝ).getD 3 0 = 0 := rfl
  simp only [List.foldl_cons, List.foldl_nil, Test.tally, Test.s_XAB, maskSum,
    testConcrete_s_AB, List.range_succ, List.range_zero, List.map_cons, List.map_nil,
    List.nil_append, List.cons_append, List.sum_cons, List.sum_nil, g0, g1, g2, g3]
  norm_num

/-- C3: on the concrete scenario the association vector is `[2, 0, -2, 0]`, the exact
branch applies (`C(4, 2) = 6`), the observed statistic is maximal over all 6 exact
partitions, the p-value is `2/6`, and the effect size is
`(1 - (-1)) / std([2, 0, -2, 0], ddof=1)`. -/
theorem weat_concrete_scenario (n_samples : ℕ) (draws : List (List ℕ))
    (h6 : 6 ≤ n_samples) :
    testConcrete.s_AB = [2, 0, -2, 0] ∧
    Nat.choose (2 * 2) 2 = 6 ∧
    (∀ Xi ∈ combs (2 * 2) 2, testConcrete.s_XAB Xi ≤ testConcrete.observed_s) ∧
    testConcrete.p_nonparametric n_samples draws = some (2 / 6 : ℝ) ∧
    testConcrete.effect_size = (1 - (-1)) / sampleStd [2, 0, -2, 0] := by
  have g0 : ([2, 0, -2, 0] : List ℝ).getD 0 0 = 2 := rfl
  have g1 : ([2, 0, -2, 0] : List ℝ).getD 1 0 = 0 := rfl
  have g2 : ([2, 0, -2, 0] : List ℝ).getD 2 0 = -2 := rfl
  have g3 : ([2, 0, -2, 0] : List ℝ).getD 3 0 = 0 := rfl
  refine ⟨testConcrete_s_AB, by decide, ?_, testConcrete_p n_samples draws h6, ?_⟩
  · have hobs : testConcrete.observed_s = 2 := by
      have hXlen : testConcrete.X.length = 2 := rfl
      rw [Test.observed_s, hXlen]
      simp only [Test.s_XAB, maskSum, testConcrete_s_AB, List.range_succ, List.range_zero,
        List.map_cons, List.map_nil, List.nil_append, List.cons_append, List.sum_cons,
        List.sum_nil, g0, g1]
      norm_num
    have hc : combs (2 * 2) 2 = [[2, 3], [1, 3], [1, 2], [0, 3], [0, 2], [0, 1]] := by decide
    rw [hc, hobs]
    intro Xi hXi
    fin_cases hXi <;>
      (simp only [Test.s_XAB, maskSum, testConcrete_s_AB, List.map_cons, List.map_nil,
        List.sum_cons, List.sum_nil, g0, g1, g2, g3]; norm_num)
  · rw [Test.effect_size, testConcrete_s_AB]
    congr 1
    have hA : testConcrete.A.length = 1 := rfl
    have hXl : testConcrete.X.length = 2 := rfl
    have hnum : testConcrete.effect_size_num =
        mean (s_wAB 1 [[1, -1], [0, 0], [-1, 1], [0, 0]] (List.range 2)) -
          mean (s_wAB 1 [[1, -1], [0, 0], [-1, 1], [0, 0]] (List.range' 2 2)) := by
      rw [Test.effect_size_num, testConcrete_matrix, hA, hXl]
      norm_num
    rw [hnum]
    simp only [s_wAB, assocRow, mean, List.range_succ, List.range_zero]
    norm_num [List.range']

/-- Witness for `p_exact_enumeration` at a concrete rational instance. -/
theorem p_exact_enumeration_witness :
    (⟨[[1]], [[2]], [], [], [], [5, 7]⟩ : Test ℚ).p_nonparametric 2 [] =
      some (((Test.countGt (⟨[[1]], [[2]], [], [], [], [5, 7]⟩ : Test ℚ) 1 +
        Test.countEq (⟨[[1]], [[2]], [], [], [], [5, 7]⟩ : Test ℚ) 1 : ℕ) : ℚ) /
        ((Nat.choose (2 * 1) 1 : ℕ) : ℚ)) ∧
    ∀ Xi : List ℕ, Xi ∈ combs (2 * 1) 1 ↔
      List.Sublist Xi (List.range (2 * 1)) ∧ Xi.length = 1 :=
  p_exact_enumeration _ 1 2 [] rfl rfl (by decide)

/-- Witness for `p_sampling_seeded` at a concrete rational instance. -/
theorem p_sampling_seeded_witness :
    (⟨[[1]], [[2]], [], [], [], [5, 7]⟩ : Test ℚ).p_nonparametric 1 [] =
      some (((1 + (([] : List (List ℕ)).map (fun a => a.take 1)).countP
          (fun Xi => decide ((⟨[[1]], [[2]], [], [], [], [5, 7]⟩ : Test ℚ).observed_s <
              Test.s_XAB (⟨[[1]], [[2]], [], [], [], [5, 7]⟩ : Test ℚ) Xi ∨
            Test.s_XAB (⟨[[1]], [[2]], [], [], [], [5, 7]⟩ : Test ℚ) Xi =
              (⟨[[1]], [[2]], [], [], [], [5, 7]⟩ : Test ℚ).observed_s)) : ℕ) : ℚ) /
        ((1 : ℕ) : ℚ)) :=
  p_sampling_seeded _ 1 1 [] rfl rfl (by decide) rfl (by decide)
    (fun a ha => absurd ha (List.not_mem_nil a))

/-- Witness for `p_strictly_positive` at a concrete rational instance. -/
theorem p_strictly_positive_witness :
    ∃ r : ℚ, (⟨[[1]], [[2]], [], [], [], [5, 7]⟩ : Test ℚ).p_nonparametric 1 [] = some r ∧
      0 < r ∧ 1 / ((max (Nat.choose (2 * 1) 1) 1 : ℕ) : ℚ) ≤ r :=
  p_strictly_positive _ 1 1 [] rfl rfl (by decide) (fun _ => rfl)

/-- Witness for `p_parametric_normal` at a concrete real instance. -/
theorem p_parametric_normal_witness :
    (⟨[[1]], [[1]], [], [], [], []⟩ : Test ℝ).p_parametric (fun _ _ _ => 0)
        (fun _ => (0, 0)) [] =
      some ((fun _ _ _ => (0 : ℝ))
        (Test.s_XYAB (⟨[[1]], [[1]], [], [], [], []⟩ : Test ℝ)
          (List.range 1) (List.range' 1 1))
        (mean (([] : List (List ℕ)).map (fun a =>
          Test.s_XYAB (⟨[[1]], [[1]], [], [], [], []⟩ : Test ℝ) (a.take 1) (a.drop 1))))
        (sampleStd (([] : List (List ℕ)).map (fun a =>
          Test.s_XYAB (⟨[[1]], [[1]], [], [], [], []⟩ : Test ℝ) (a.take 1) (a.drop 1))))) ∧
    (⟨[[1]], [[1]], [], [], [], []⟩ : Test ℝ).p_parametric (fun _ _ _ => 0)
        (fun _ => (0, 0)) [] =
      (⟨[[1]], [[1]], [], [], [], []⟩ : Test ℝ).p_parametric (fun _ _ _ => 0)
        (fun _ => (1, 1)) [] :=
  p_parametric_normal _ _ _ (fun _ => (1, 1)) [] 1 0 rfl rfl rfl

/-- Witness for `weat_concrete_scenario` at the default sampling budget. -/
theorem weat_concrete_scenario_witness :
    testConcrete.s_AB = [2, 0, -2, 0] ∧
    Nat.choose (2 * 2) 2 = 6 ∧
    (∀ Xi ∈ combs (2 * 2) 2, testConcrete.s_XAB Xi ≤ testConcrete.observed_s) ∧
    testConcrete.p_nonparametric 10000 [] = some (2 / 6 : ℝ) ∧
    testConcrete.effect_size = (1 - (-1)) / sampleStd [2, 0, -2, 0] :=
  weat_concrete_scenario 10000 [] (by norm_num)

/-- A degenerate instance: all four sets hold the same vector, so every combined
target is equally associated with `A` and `B` and the association vector is constant. -/
noncomputable def testDegenerate : Test ℝ :=
  Test.make cosineSim [[1, 0]] [[1, 0]] [[1, 0]] [[1, 0]]

/-- The degenerate instance has the constant association vector `[0, 0]`. -/
theorem testDegenerate_s_AB : testDegenerate.s_AB = [0, 0] := by
  have h : testDegenerate.s_AB = calc_s_AB 1 testDegenerate.similarity_matrix := rfl
  have hm : testDegenerate.similarity_matrix = [[1, 1], [1, 1]] := by
    show similarities cosineSim [[(1:ℝ), 0]] [[1, 0]] [[1, 0]] [[1, 0]] = [[1, 1], [1, 1]]
    simp only [similarities, cosineSim, dotp, List.cons_append, List.nil_append,
      List.map_cons, List.map_nil, List.zipWith_cons_cons, List.zipWith_nil_right,
      List.sum_cons, List.sum_nil]
    norm_num [Real.sqrt_one]
  rw [h, hm]
  simp only [calc_s_AB, s_wAB, assocRow, mean]
  norm_num [List.range_succ]

/-- The sample standard deviation of the degenerate association vector is zero. -/
theorem testDegenerate_std : sampleStd testDegenerate.s_AB = 0 := by
  rw [testDegenerate_s_AB, sampleStd, mean]
  norm_num

/-- Counterexample to C7: on a zero-variance association vector, `effect_size` still
returns the plain quotient by the zero standard deviation (in the floating-point
source this is `NaN`/`Inf` plus a numpy warning); no distinct error outcome exists. -/
theorem effect_size_degenerate_unguarded :
    sampleStd testDegenerate.s_AB = 0 ∧
    testDegenerate.effect_size = testDegenerate.effect_size_num / 0 :=
  ⟨testDegenerate_std, by rw [Test.effect_size, testDegenerate_std]⟩

/-- C7 (amended): `effect_size` performs the standardizing division unconditionally;
when the association vector has zero sample standard deviation the division by zero is
carried out as-is and no distinct degenerate outcome is signalled. -/
theorem effect_size_no_degenerate_guard (t : Test ℝ) (h : sampleStd t.s_AB = 0) :
    t.effect_size = t.effect_size_num / 0 := by
  rw [Test.effect_size, h]

/-- Witness for `effect_size_no_degenerate_guard` at the degenerate instance. -/
theorem effect_size_no_degenerate_guard_witness :
    testDegenerate.effect_size = testDegenerate.effect_size_num / 0 :=
  effect_size_no_degenerate_guard testDegenerate testDegenerate_std

/-- `Test.p` always returns a value once the size assertion holds. -/
theorem p_nonparametric_defined (t : Test F) (n_samples : ℕ) (draws : List (List ℕ))
    (h : t.X.length = t.Y.length) : (t.p_nonparametric n_samples draws).isSome = true := by
  rw [Test.p_nonparametric, if_pos h]
  dsimp only
  split <;> rfl

/-- Counterexample to C8: an empty attribute set `A` (with `B` nonempty) does not make
the similarity computation fail — construction succeeds and the significance
computation also returns a value (the source only emits NaN associations with a numpy
warning, it raises nothing). -/
theorem makeChecked_empty_attribute_succeeds :
    (Test.makeChecked cosineSim [[1, 0]] [[0, 1]] [] [[1, 0]]).isSome = true ∧
    ∃ t : Test ℝ, Test.makeChecked cosineSim [[1, 0]] [[0, 1]] [] [[1, 0]] = some t ∧
      (t.p_nonparametric 10000 []).isSome = true := by
  exact ⟨rfl, ⟨_, rfl, p_nonparametric_defined _ 10000 [] rfl⟩⟩

/-- C8 (amended): the `assert |X| == |Y|` makes both significance estimators fail for
unequal target sizes, and `cosine_similarity` fails when a stacked input is empty or
the feature dimensions are inconsistent; a single empty attribute set is not caught. -/
theorem precondition_failures (t : Test F) (t2 : Test ℝ) (n_samples : ℕ)
    (draws : List (List ℕ)) (sf : ℝ → ℝ → ℝ → ℝ) (shapiro : List ℝ → ℝ × ℝ)
    (k : List F → List F → F) (X Y A B : List (List F)) :
    (t.X.length ≠ t.Y.length → t.p_nonparametric n_samples draws = none) ∧
    (t2.X.length ≠ t2.Y.length → t2.p_parametric sf shapiro draws = none) ∧
    (X ++ Y = [] → Test.makeChecked k X Y A B = none) ∧
    (A ++ B = [] → Test.makeChecked k X Y A B = none) ∧
    (dimsOK (X ++ Y ++ A ++ B) = false → Test.makeChecked k X Y A B = none) := by
  refine ⟨?_, ?_, ?_, ?_, ?_⟩
  · intro h; rw [Test.p_nonparametric, if_neg h]
  · intro h; rw [Test.p_parametric, if_neg h]
  · intro h; simp [Test.makeChecked, similaritiesChecked, h]
  · intro h; simp [Test.makeChecked, similaritiesChecked, h]
  · intro h
    rw [List.append_assoc, List.append_assoc] at h
    simp [Test.makeChecked, similaritiesChecked, h]

/-- Witness for `precondition_failures` at concrete violating instances. -/
theorem precondition_failures_witness :
    ((⟨[[1]], [], [], [], [], []⟩ : Test ℚ).p_nonparametric 5 [] = none) ∧
    ((⟨[[1]], [], [], [], [], []⟩ : Test ℝ).p_parametric (fun _ _ _ => 0)
      (fun _ => (0, 0)) [] = none) ∧
    (Test.makeChecked (fun _ _ => (0 : ℚ)) [] [] [[1]] [[1]] = none) ∧
    (Test.makeChecked (fun _ _ => (0 : ℚ)) [[1]] [[1]] [] [] = none) ∧
    (Test.makeChecked (fun _ _ => (0 : ℚ)) [[1]] [[1, 2]] [[1]] [[1]] = none) :=
  ⟨(precondition_failures (⟨[[1]], [], [], [], [], []⟩ : Test ℚ)
      (⟨[[1]], [], [], [], [], []⟩ : Test ℝ) 5 [] (fun _ _ _ => 0) (fun _ => (0, 0))
      (fun _ _ => (0 : ℚ)) [] [] [[1]] [[1]]).1 (by decide),
   (precondition_failures (⟨[[1]], [], [], [], [], []⟩ : Test ℚ)
      (⟨[[1]], [], [], [], [], []⟩ : Test ℝ) 5 [] (fun _ _ _ => 0) (fun _ => (0, 0))
      (fun _ _ => (0 : ℚ)) [] [] [[1]] [[1]]).2.1 (by decide),
   (precondition_failures (⟨[[1]], [], [], [], [], []⟩ : Test ℚ)
      (⟨[[1]], [], [], [], [], []⟩ : Test ℝ) 5 [] (fun _ _ _ => 0) (fun _ => (0, 0))
      (fun _ _ => (0 : ℚ)) [] [] [[1]] [[1]]).2.2.1 rfl,
   (precondition_failures (⟨[[1]], [], [], [], [], []⟩ : Test ℚ)
      (⟨[[1]], [], [], [], [], []⟩ : Test ℝ) 5 [] (fun _ _ _ => 0) (fun _ => (0, 0))
      (fun _ _ => (0 : ℚ)) [[1]] [[1]] [] []).2.2.2.1 rfl,
   (precondition_failures (⟨[[1]], [], [], [], [], []⟩ : Test ℚ)
      (⟨[[1]], [], [], [], [], []⟩ : Test ℝ) 5 [] (fun _ _ _ => 0) (fun _ => (0, 0))
      (fun _ _ => (0 : ℚ)) [[1]] [[1, 2]] [[1]] [[1]]).2.2.2.2 (by decide)⟩

/-- `reset_calc` rebuilds exactly the cached state of a well-formed instance whenever
the four input sets agree with it. -/
theorem reset_calc_wellFormed_eq (k : List F → List F → F) (t u : Test F)
    (hwf : t.WellFormed k) (hX : u.X = t.X) (hY : u.Y = t.Y) (hA : u.A = t.A)
    (hB : u.B = t.B) : Test.reset_calc k u = t := by
  obtain ⟨h1, h2⟩ := hwf
  apply Test.ext <;> simp only [Test.reset_calc, hX, hY, hA, hB]
  · exact h1.symm
  · rw [← h1]
    exact h2.symm

/-- C9 (amended): a randomized `run` restores the instance to its initial well-formed
state, a plain `run` leaves the state untouched, and the result of a plain `run` is
independent of the drawn shuffles whenever the exact branch applies
(`C(2n, n) ≤ n_samples`); in the sampling branch the result depends on the draws. -/
theorem run_frame (k : List ℝ → List ℝ → ℝ) (t : Test ℝ) (shuffled : List (List ℝ))
    (n_samples : ℕ) (draws draws2 : List (List ℕ)) :
    (∀ res tfin, t.WellFormed k →
        Test.run k t true shuffled n_samples draws = some (res, tfin) → tfin = t) ∧
    (∀ res tfin, Test.run k t false shuffled n_samples draws = some (res, tfin) →
        tfin = t) ∧
    (Nat.choose (2 * t.X.length) t.X.length ≤ n_samples →
        Test.run k t false shuffled n_samples draws =
          Test.run k t false shuffled n_samples draws2) := by
  refine ⟨?_, ?_, ?_⟩
  · intro res tfin hwf hrun
    rw [Test.run, if_pos rfl] at hrun
    dsimp only at hrun
    split at hrun
    · exact absurd hrun (by simp)
    · have htfin := congrArg Prod.snd (Option.some.inj hrun)
      dsimp only at htfin
      rw [← htfin]
      exact reset_calc_wellFormed_eq k t _ hwf rfl rfl rfl rfl
  · intro res tfin hrun
    rw [Test.run, if_neg Bool.false_ne_true] at hrun
    split at hrun
    · exact absurd hrun (by simp)
    · have htfin := congrArg Prod.snd (Option.some.inj hrun)
      dsimp only at htfin
      exact htfin.symm
  · intro hc
    have hp : t.p_nonparametric n_samples draws2 =
        t.p_nonparametric n_samples draws := by
      rw [Test.p_nonparametric, Test.p_nonparametric]
      by_cases hg : t.X.length = t.Y.length
      · rw [if_pos hg, if_pos hg]
        dsimp only
        rw [if_neg (Nat.not_lt.mpr hc), if_neg (Nat.not_lt.mpr hc)]
      · rw [if_neg hg, if_neg hg]
    rw [Test.run, Test.run, if_neg Bool.false_ne_true, if_neg Bool.false_ne_true, hp]

/-- Witness for `run_frame`: on the concrete scenario a plain exact-branch run is
draw-independent, and the randomized run with the identity shuffle restores the
state. -/
theorem run_frame_witness :
    Test.run cosineSim testConcrete false [] 10000 [[0, 1, 2, 3]] =
      Test.run cosineSim testConcrete false [] 10000 [] ∧
    testConcrete = testConcrete := by
  have hstep : Test.run cosineSim testConcrete true
      [[1, 0], [0, 1], [-1, 0], [0, -1], [1, 0], [-1, 0]] 10000 [] =
      (match testConcrete.p_nonparametric 10000 [] with
        | none => none
        | some pv => some ((testConcrete.effect_size, pv), testConcrete)) := rfl
  have hrun2 : Test.run cosineSim testConcrete true
      [[1, 0], [0, 1], [-1, 0], [0, -1], [1, 0], [-1, 0]] 10000 [] =
      some ((testConcrete.effect_size, 2 / 6), testConcrete) := by
    rw [hstep, testConcrete_p 10000 [] (by norm_num)]
  exact ⟨(run_frame cosineSim testConcrete [] 10000 [[0, 1, 2, 3]] []).2.2 (by decide),
    (run_frame cosineSim testConcrete
        [[1, 0], [0, 1], [-1, 0], [0, -1], [1, 0], [-1, 0]] 10000 [] []).1
      (testConcrete.effect_size, 2 / 6) testConcrete ⟨rfl, rfl⟩ hrun2⟩

/-- Sampling-branch p-value of the concrete scenario when both drawn shuffles are the
identity permutation: every sampled `Xi` ties the observed statistic. -/
theorem testConcrete_p_sampling_id :
    testConcrete.p_nonparametric 3 [[0, 1, 2, 3], [0, 1, 2, 3]] = some (3 / 3 : ℝ) := by
  rw [Test.p_nonparametric]
  have hguard : testConcrete.X.length = testConcrete.Y.length := rfl
  rw [if_pos hguard]
  have hXlen : testConcrete.X.length = 2 := rfl
  simp only [hXlen]
  rw [if_pos (by decide : Nat.choose (2 * 2) 2 > 3)]
  have hmap : ([[0, 1, 2, 3], [0, 1, 2, 3]] : List (List ℕ)).map (fun a => a.take 2) =
      [[0, 1], [0, 1]] := by decide
  rw [hmap]
  have g0 : ([2, 0, -2, 0] : List ℝ).getD 0 0 = 2 := rfl
  have g1 : ([2, 0, -2, 0] : List ℝ).getD 1 0 = 0 := rfl
  simp only [List.foldl_cons, List.foldl_nil, Test.tally, Test.s_XAB, maskSum,
    testConcrete_s_AB, List.range_succ, List.range_zero, List.map_cons, List.map_nil,
    List.nil_append, List.cons_append, List.sum_cons, List.sum_nil, g0, g1]
  norm_num

/-- Sampling-branch p-value of the concrete scenario when both drawn shuffles move
index 2 into the sampled half: no sampled `Xi` reaches the observed statistic. -/
theorem testConcrete_p_sampling_swapped :
    testConcrete.p_nonparametric 3 [[1, 2, 0, 3], [1, 2, 0, 3]] = some (1 / 3 : ℝ) := by
  rw [Test.p_nonparametric]
  have hguard : testConcrete.X.length = testConcrete.Y.length := rfl
  rw [if_pos hguard]
  have hXlen : testConcrete.X.length = 2 := rfl
  simp only [hXlen]
  rw [if_pos (by decide : Nat.choose (2 * 2) 2 > 3)]
  have hmap : ([[1, 2, 0, 3], [1, 2, 0, 3]] : List (List ℕ)).map (fun a => a.take 2) =
      [[1, 2], [1, 2]] := by decide
  rw [hmap]
  have g0 : ([2, 0, -2, 0] : List ℝ).getD 0 0 = 2 := rfl
  have g1 : ([2, 0, -2, 0] : List ℝ).getD 1 0 = 0 := rfl
  have g2 : ([2, 0, -2, 0] : List ℝ).getD 2 0 = -2 := rfl
  simp only [List.foldl_cons, List.foldl_nil, Test.tally, Test.s_XAB, maskSum,
    testConcrete_s_AB, List.range_succ, List.range_zero, List.map_cons, List.map_nil,
    List.nil_append, List.cons_append, List.sum_cons, List.sum_nil, g0, g1, g2]
  norm_num

/-- Counterexample to C9: in the sampling branch (`n_samples = 3 < C(4,2) = 6`), two
plain non-randomized runs that consume different RNG shuffles return different
p-values, so successive calls on the same instance need not yield identical results. -/
theorem run_rng_dependent :
    Test.run cosineSim testConcrete false [] 3 [[0, 1, 2, 3], [0, 1, 2, 3]] ≠
      Test.run cosineSim testConcrete false [] 3 [[1, 2, 0, 3], [1, 2, 0, 3]] := by
  have hstep1 : Test.run cosineSim testConcrete false [] 3 [[0, 1, 2, 3], [0, 1, 2, 3]] =
      (match testConcrete.p_nonparametric 3 [[0, 1, 2, 3], [0, 1, 2, 3]] with
        | none => none
        | some pv => some ((testConcrete.effect_size, pv), testConcrete)) := rfl
  have hstep2 : Test.run cosineSim testConcrete false [] 3 [[1, 2, 0, 3], [1, 2, 0, 3]] =
      (match testConcrete.p_nonparametric 3 [[1, 2, 0, 3], [1, 2, 0, 3]] with
        | none => none
        | some pv => some ((testConcrete.effect_size, pv), testConcrete)) := rfl
  rw [hstep1, hstep2, testConcrete_p_sampling_id, testConcrete_p_sampling_swapped]
  intro h
  simp only [Option.some.injEq, Prod.mk.injEq] at h
  have h12 := h.1.2
  norm_num at h12

/-- Reading a list back off by its indices (prefix of an append). -/
theorem map_getD_range_append {α : Type} (dflt : α) (u v : List α) :
    (List.range u.length).map (fun i => (u ++ v).getD i dflt) = u := by
  induction u with
  | nil => simp
  | cons a u ih =>
    rw [List.length_cons, List.range_succ_eq_map, List.map_cons, List.map_map]
    simp only [List.cons_append, List.getD_cons_zero, Function.comp_def, List.getD_cons_succ]
    rw [List.cons_inj_right]
    exact ih

/-- Reading a list back off by its indices. -/
theorem map_getD_range_self {α : Type} (dflt : α) (u : List α) :
    (List.range u.length).map (fun i => u.getD i dflt) = u := by
  have h := map_getD_range_append dflt u []
  simpa using h

/-- Reading a list back off by its indices (suffix of an append). -/
theorem map_getD_range_drop {α : Type} (dflt : α) (u v : List α) :
    (List.range' u.length v.length).map (fun i => (u ++ v).getD i dflt) = v := by
  rw [List.range'_eq_map_range, List.map_map]
  have h : ∀ i, (u ++ v).getD (u.length + i) dflt = v.getD i dflt := by
    intro i
    induction u with
    | nil => simp
    | cons a u ih => simpa [Nat.succ_add] using ih
  simp only [Function.comp_def, h]
  exact map_getD_range_self dflt v

/-- `sublistsLen` commutes with `map`. -/
theorem sublistsLen_map_eq {α β : Type} (f : α → β) (l : List α) :
    ∀ k : ℕ, (l.map f).sublistsLen k = (l.sublistsLen k).map (List.map f) := by
  induction l with
  | nil =>
    intro k
    cases k with
    | zero => simp
    | succ k => simp [List.sublistsLen_succ_nil]
  | cons a tl ih =>
    intro k
    cases k with
    | zero => simp
    | succ k =>
      rw [List.map_cons, List.sublistsLen_succ_cons, List.sublistsLen_succ_cons,
        List.map_append, ih (k + 1), ih k, List.map_map, List.map_map]
      congr 1

/-- The list of size-`k` sublist sums, as a multiset, is the multiset of sums over
`powersetCard` — hence invariant under permutations of the vector. -/
theorem map_sum_sublistsLen_coe (w : List F) (k : ℕ) :
    (((w.sublistsLen k).map List.sum : List F) : Multiset F) =
      (Multiset.powersetCard k (↑w : Multiset F)).map Multiset.sum := by
  rw [Multiset.powersetCard_coe, Multiset.map_coe, List.map_map]
  congr 1

/-- Permuting the vector permutes its multiset of size-`k` subset sums. -/
theorem subsetSums_perm (w w2 : List F) (h : w.Perm w2) (k : ℕ) :
    ((w.sublistsLen k).map List.sum).Perm ((w2.sublistsLen k).map List.sum) := by
  rw [← Multiset.coe_eq_coe, map_sum_sublistsLen_coe, map_sum_sublistsLen_coe,
    Multiset.coe_eq_coe.mpr h]

/-- Counting combinations of indices by a property of their mask sum is counting the
subset sums of the vector itself. -/
theorem countP_combs_eq (w : List F) (k : ℕ) (q : F → Bool) :
    (combs w.length k).countP (fun mask => q (maskSum w mask)) =
      ((w.sublistsLen k).map List.sum).countP q := by
  conv_rhs => rw [show w = (List.range w.length).map (fun i => w.getD i 0) from
    (map_getD_range_self 0 w).symm]
  rw [sublistsLen_map_eq, List.map_map, List.countP_map]
  rfl

/-- Counting combinations by a property of their mask sum is invariant under
permutations of the underlying vector. -/
theorem countP_combs_perm (w w2 : List F) (h : w.Perm w2) (k : ℕ) (q : F → Bool) :
    (combs w.length k).countP (fun mask => q (maskSum w mask)) =
      (combs w2.length k).countP (fun mask => q (maskSum w2 mask)) := by
  rw [countP_combs_eq, countP_combs_eq]
  exact List.Perm.countP_eq q (subsetSums_perm w w2 h k)

/-- Filtering a duplicate-free list down to the members of one of its sublists
recovers the sublist. -/
theorem filter_mem_of_sublist {l r : List ℕ} (hr : r.Nodup) (h : List.Sublist l r) :
    r.filter (fun i => decide (i ∈ l)) = l := by
  induction h with
  | slnil => simp
  | cons a h ih =>
    rename_i l' r'
    have hr' : r'.Nodup := (List.nodup_cons.mp hr).2
    have ha : a ∉ r' := (List.nodup_cons.mp hr).1
    have hal : a ∉ l' := fun hal => ha (h.subset hal)
    rw [List.filter_cons, if_neg (by simpa using hal)]
    exact ih hr'
  | cons₂ a h ih =>
    rename_i l' r'
    have hr' : r'.Nodup := (List.nodup_cons.mp hr).2
    have ha : a ∉ r' := (List.nodup_cons.mp hr).1
    have hcong : r'.filter (fun i => decide (i ∈ a :: l')) =
        r'.filter (fun i => decide (i ∈ l')) := by
      apply List.filter_congr
      intro x hx
      have hxa : x ≠ a := fun hxa => ha (hxa ▸ hx)
      simp [List.mem_cons, hxa]
    rw [List.filter_cons, if_pos (by simp), hcong, ih hr']

/-- The complementary index set of a partition: the other half of `range N`. -/
def maskCompl (N : ℕ) (mask : List ℕ) : List ℕ :=
  (List.range N).filter (fun i => decide (i ∉ mask))

theorem maskCompl_sublist (N : ℕ) (mask : List ℕ) :
    List.Sublist (maskCompl N mask) (List.range N) := List.filter_sublist _

theorem maskCompl_length {N : ℕ} {mask : List ℕ}
    (h : List.Sublist mask (List.range N)) :
    (maskCompl N mask).length = N - mask.length := by
  have h1 : (List.range N).countP (fun i => decide (i ∈ mask)) = mask.length := by
    rw [List.countP_eq_length_filter, filter_mem_of_sublist (List.nodup_range N) h]
  have h2 : (maskCompl N mask).length =
      (List.range N).countP (fun i => decide (i ∉ mask)) := by
    rw [maskCompl, ← List.countP_eq_length_filter]
  have hsplit : N = (List.range N).countP (fun i => decide (i ∈ mask)) +
      (List.range N).countP (fun i => decide (i ∉ mask)) := by
    have hh := List.length_eq_countP_add_countP
      (fun i => decide (i ∈ mask)) (List.range N)
    rw [List.length_range] at hh
    conv_lhs => rw [hh]
    congr 1
    apply List.countP_congr
    intro x _
    simp
  omega

theorem maskCompl_maskCompl {N : ℕ} {mask : List ℕ}
    (h : List.Sublist mask (List.range N)) :
    maskCompl N (maskCompl N mask) = mask := by
  rw [maskCompl, maskCompl]
  have hcong : (List.range N).filter
      (fun i => decide (i ∉ (List.range N).filter (fun j => decide (j ∉ mask)))) =
      (List.range N).filter (fun i => decide (i ∈ mask)) := by
    apply List.filter_congr
    intro x hx
    simp only [List.mem_filter, decide_eq_true_eq, hx]
    by_cases hxm : x ∈ mask <;> simp [hxm]
  rw [hcong, filter_mem_of_sublist (List.nodup_range N) h]

theorem mem_combs {N k : ℕ} {mask : List ℕ} :
    mask ∈ combs N k ↔ List.Sublist mask (List.range N) ∧ mask.length = k := by
  rw [combs, List.mem_sublistsLen]

theorem maskCompl_mem_combs {n : ℕ} {mask : List ℕ} (h : mask ∈ combs (2 * n) n) :
    maskCompl (2 * n) mask ∈ combs (2 * n) n := by
  obtain ⟨hsub, hlen⟩ := mem_combs.mp h
  refine mem_combs.mpr ⟨maskCompl_sublist _ _, ?_⟩
  rw [maskCompl_length hsub, hlen]
  omega

/-- Complementation permutes the size-`n` combinations of the pooled `2n` indices. -/
theorem map_maskCompl_perm (n : ℕ) :
    ((combs (2 * n) n).map (maskCompl (2 * n))).Perm (combs (2 * n) n) := by
  have hnd : (combs (2 * n) n).Nodup :=
    List.nodup_sublistsLen n (List.nodup_range (2 * n))
  have hndm : ((combs (2 * n) n).map (maskCompl (2 * n))).Nodup := by
    apply List.Nodup.map_on ?_ hnd
    intro x hx y hy hxy
    have hxs := (mem_combs.mp hx).1
    have hys := (mem_combs.mp hy).1
    rw [← maskCompl_maskCompl hxs, hxy, maskCompl_maskCompl hys]
  rw [List.perm_ext_iff_of_nodup hndm hnd]
  intro mask
  constructor
  · intro hm
    obtain ⟨y, hy, hxy⟩ := List.mem_map.mp hm
    exact hxy ▸ maskCompl_mem_combs hy
  · intro hm
    exact List.mem_map.mpr ⟨maskCompl (2 * n) mask, maskCompl_mem_combs hm,
      maskCompl_maskCompl (mem_combs.mp hm).1⟩

/-- A partition's sum and its complement's sum add up to the total. -/
theorem maskSum_compl (w : List F) {N : ℕ} (hw : w.length = N) {mask : List ℕ}
    (hsub : List.Sublist mask (List.range N)) :
    maskSum w mask + maskSum w (maskCompl N mask) = w.sum := by
  have hperm : (mask ++ maskCompl N mask).Perm (List.range N) := by
    have hnm : mask.Nodup := hsub.nodup (List.nodup_range N)
    have hnc : (maskCompl N mask).Nodup :=
      (maskCompl_sublist N mask).nodup (List.nodup_range N)
    have hdisj : ∀ x ∈ mask, x ∉ maskCompl N mask := by
      intro x hx hxc
      have := (List.mem_filter.mp hxc).2
      simp only [decide_eq_true_eq] at this
      exact this hx
    have hnd : (mask ++ maskCompl N mask).Nodup := by
      rw [List.nodup_append]
      exact ⟨hnm, hnc, fun x hx => hdisj x hx⟩
    rw [List.perm_ext_iff_of_nodup hnd (List.nodup_range N)]
    intro x
    constructor
    · intro hx
      rcases List.mem_append.mp hx with hx | hx
      · exact hsub.subset hx
      · exact (maskCompl_sublist N mask).subset hx
    · intro hx
      by_cases hxm : x ∈ mask
      · exact List.mem_append.mpr (Or.inl hxm)
      · refine List.mem_append.mpr (Or.inr ?_)
        rw [maskCompl, List.mem_filter]
        simp [hx, hxm]
  have hsum : maskSum w (mask ++ maskCompl N mask) = maskSum w (List.range N) := by
    rw [maskSum, maskSum]
    exact List.Perm.sum_eq (hperm.map _)
  have hrange : maskSum w (List.range N) = w.sum := by
    rw [← hw, maskSum, map_getD_range_self 0 w]
  rw [maskSum, List.map_append, List.sum_append, hrange] at hsum
  rw [maskSum, maskSum]
  exact hsum

/-- Reflecting a mask-sum property through the complement bijection. -/
theorem countP_combs_compl (w : List F) (n : ℕ) (hw : w.length = 2 * n) (q : F → Bool) :
    (combs (2 * n) n).countP (fun mask => q (maskSum w mask)) =
      (combs (2 * n) n).countP (fun mask => q (w.sum - maskSum w mask)) := by
  have h1 := List.Perm.countP_eq (fun mask => q (maskSum w mask)) (map_maskCompl_perm n)
  rw [← h1, List.countP_map]
  apply List.countP_congr
  intro mask hm
  have hsub := (mem_combs.mp hm).1
  have hsc : maskSum w (maskCompl (2 * n) mask) = w.sum - maskSum w mask :=
    eq_sub_of_add_eq' (maskSum_compl w hw hsub)
  simp only [Function.comp_apply, hsc]

/-- Counting `s ≤ ·` and `· ≤ s` double-counts exactly the ties. -/
theorem countP_ge_le_split (w : List F) (s : F) (L : List (List ℕ)) :
    L.countP (fun m => decide (s ≤ maskSum w m)) +
      L.countP (fun m => decide (maskSum w m ≤ s)) =
      L.length + L.countP (fun m => decide (maskSum w m = s)) := by
  induction L with
  | nil => simp
  | cons hd tl ih =>
    rw [List.countP_cons, List.countP_cons, List.countP_cons, List.length_cons]
    rcases lt_trichotomy (maskSum w hd) s with h | h | h
    · simp only [not_le.mpr h, h.le, h.ne, decide_eq_true_eq]
      simp
      omega
    · simp only [h, le_refl, decide_eq_true_eq]
      simp
      omega
    · simp only [not_le.mpr h, h.le, h.ne', decide_eq_true_eq]
      simp [not_le.mpr h, h.ne']
      omega

/-- The conservative `>`-or-`==` rule counts exactly the partitions with
`s ≤ si`. -/
theorem countP_or_eq_ge (w : List F) (s : F) (L : List (List ℕ)) :
    L.countP (fun m => decide (s < maskSum w m ∨ maskSum w m = s)) =
      L.countP (fun m => decide (s ≤ maskSum w m)) := by
  apply List.countP_congr
  intro x _
  simp only [decide_eq_true_eq]
  constructor
  · rintro (h | h)
    · exact h.le
    · exact h.ge
  · intro h
    rcases h.lt_or_eq with h' | h'
    · exact Or.inl h'
    · exact Or.inr h'.symm

/-- `calc_s_AB` is the row-wise association map over the whole matrix. -/
theorem calc_s_AB_eq_map (nA : ℕ) (M : List (List F)) :
    calc_s_AB nA M = M.map (assocRow nA) := by
  rw [calc_s_AB, s_wAB]
  conv_rhs => rw [show M = (List.range M.length).map (fun i => M.getD i []) from
    (map_getD_range_self [] M).symm]
  rw [List.map_map]
  rfl

/-- The association score of a single target embedding `x` against `A` and `B`. -/
def itemAssoc (k : List F → List F → F) (A B : List (List F)) (x : List F) : F :=
  assocRow A.length ((A ++ B).map (fun a => k x a))

/-- The association vector of a freshly constructed instance splits into the
`X`-scores followed by the `Y`-scores. -/
theorem make_s_AB (k : List F → List F → F) (X Y A B : List (List F)) :
    (Test.make k X Y A B).s_AB = X.map (itemAssoc k A B) ++ Y.map (itemAssoc k A B) := by
  show calc_s_AB A.length (similarities k X Y A B) = _
  rw [similarities, calc_s_AB_eq_map, List.map_map, List.map_append]
  rfl

/-- The similarity matrix of a freshly constructed instance splits into the `X`-rows
followed by the `Y`-rows. -/
theorem make_matrix (k : List F → List F → F) (X Y A B : List (List F)) :
    (Test.make k X Y A B).similarity_matrix =
      X.map (fun x => (A ++ B).map (fun a => k x a)) ++
        Y.map (fun x => (A ++ B).map (fun a => k x a)) := by
  show similarities k X Y A B = _
  rw [similarities, List.map_append]

theorem s_wAB_range_append (nA : ℕ) (P Q : List (List F)) :
    s_wAB nA (P ++ Q) (List.range P.length) = P.map (assocRow nA) := by
  have h := congrArg (List.map (assocRow nA)) (map_getD_range_append ([] : List F) P Q)
  rw [List.map_map] at h
  rw [s_wAB]
  exact h

theorem s_wAB_range_drop (nA : ℕ) (P Q : List (List F)) :
    s_wAB nA (P ++ Q) (List.range' P.length Q.length) = Q.map (assocRow nA) := by
  have h := congrArg (List.map (assocRow nA)) (map_getD_range_drop ([] : List F) P Q)
  rw [List.map_map] at h
  rw [s_wAB]
  exact h

theorem maskSum_range_append (u v : List F) :
    maskSum (u ++ v) (List.range u.length) = u.sum := by
  rw [maskSum, map_getD_range_append]

theorem maskSum_range_drop (u v : List F) :
    maskSum (u ++ v) (List.range' u.length v.length) = v.sum := by
  rw [maskSum, map_getD_range_drop]

theorem mean_perm {l l2 : List F} (h : l.Perm l2) : mean l = mean l2 := by
  rw [mean, mean, h.sum_eq, h.length_eq]

theorem sampleStd_perm {l l2 : List ℝ} (h : l.Perm l2) : sampleStd l = sampleStd l2 := by
  have hm : mean l = mean l2 := mean_perm h
  rw [sampleStd, sampleStd, hm, h.length_eq,
    List.Perm.sum_eq (h.map (fun x => (x - mean l2) ^ 2))]

/-- Exact-branch value of the non-parametric `Test.p`: the `>`-or-`==` count over all
size-`n` combinations, divided by `C(2n, n)`. -/
theorem p_exact_val (t : Test F) (n n_samples : ℕ) (draws : List (List ℕ))
    (hX : t.X.length = n) (hY : t.Y.length = n)
    (hbranch : Nat.choose (2 * n) n ≤ n_samples) :
    t.p_nonparametric n_samples draws =
      some ((((combs (2 * n) n).countP (fun Xi =>
        decide (t.s_XAB (List.range n) < t.s_XAB Xi ∨
          t.s_XAB Xi = t.s_XAB (List.range n))) : ℕ) : F) /
        ((Nat.choose (2 * n) n : ℕ) : F)) := by
  rw [Test.p_nonparametric, if_pos (hX.trans hY.symm)]
  simp only [hX]
  rw [if_neg (Nat.not_lt.mpr hbranch), foldl_tally]
  simp only [Nat.zero_add, combs, List.length_sublistsLen, List.length_range]

/-- The effect-size numerator of a fresh instance is the difference of the mean
association scores of `X` and of `Y`. -/
theorem make_effect_size_num (k : List ℝ → List ℝ → ℝ) (X Y A B : List (List ℝ)) :
    (Test.make k X Y A B).effect_size_num =
      mean (X.map (itemAssoc k A B)) - mean (Y.map (itemAssoc k A B)) := by
  rw [Test.effect_size_num]
  have hA : (Test.make k X Y A B).A.length = A.length := rfl
  have hXl : (Test.make k X Y A B).X.length = X.length := rfl
  rw [hA, hXl, make_matrix]
  have hlen : (X.map (fun x => (A ++ B).map (fun a => k x a)) ++
      Y.map (fun x => (A ++ B).map (fun a => k x a))).length - X.length =
      Y.length := by simp
  rw [hlen]
  have h1 : s_wAB A.length (X.map (fun x => (A ++ B).map (fun a => k x a)) ++
      Y.map (fun x => (A ++ B).map (fun a => k x a))) (List.range X.length) =
      X.map (itemAssoc k A B) := by
    have h := s_wAB_range_append A.length (X.map (fun x => (A ++ B).map (fun a => k x a)))
      (Y.map (fun x => (A ++ B).map (fun a => k x a)))
    rw [List.length_map] at h
    rw [h, List.map_map]
    rfl
  have h2 : s_wAB A.length (X.map (fun x => (A ++ B).map (fun a => k x a)) ++
      Y.map (fun x => (A ++ B).map (fun a => k x a))) (List.range' X.length Y.length) =
      Y.map (itemAssoc k A B) := by
    have h := s_wAB_range_drop A.length (X.map (fun x => (A ++ B).map (fun a => k x a)))
      (Y.map (fun x => (A ++ B).map (fun a => k x a)))
    rw [List.length_map, List.length_map] at h
    rw [h, List.map_map]
    rfl
  rw [h1, h2]

/-- C5: for valid inputs, swapping `X` and `Y` negates the effect size and the
aggregate statistic `s_XYAB`, and the two exact-branch p-values add up to
`1 + t/C(2n, n)` where `t` counts the partitions tying the observed statistic. -/
theorem swap_antisymmetry (X Y A B : List (List ℝ)) (n d n_samples : ℕ)
    (draws draws2 : List (List ℕ))
    (hX : X.length = n) (hY : Y.length = n)
    (hXne : X ≠ []) (hYne : Y ≠ []) (hAne : A ≠ []) (hBne : B ≠ [])
    (hd : 0 < d) (hdim : ∀ r ∈ X ++ Y ++ A ++ B, r.length = d)
    (hbranch : Nat.choose (2 * n) n ≤ n_samples) :
    (Test.make cosineSim Y X A B).effect_size =
      -(Test.make cosineSim X Y A B).effect_size ∧
    (Test.make cosineSim Y X A B).s_XYAB (List.range n) (List.range' n n) =
      -((Test.make cosineSim X Y A B).s_XYAB (List.range n) (List.range' n n)) ∧
    ∃ pv pvs : ℝ,
      (Test.make cosineSim X Y A B).p_nonparametric n_samples draws = some pv ∧
      (Test.make cosineSim Y X A B).p_nonparametric n_samples draws2 = some pvs ∧
      pv + pvs = 1 + ((Test.make cosineSim X Y A B).countEq n : ℝ) /
        ((Nat.choose (2 * n) n : ℕ) : ℝ) := by
  have hu : (X.map (itemAssoc cosineSim A B)).length = n := by
    rw [List.length_map, hX]
  have hv : (Y.map (itemAssoc cosineSim A B)).length = n := by
    rw [List.length_map, hY]
  set u := X.map (itemAssoc cosineSim A B)
  set v := Y.map (itemAssoc cosineSim A B)
  have hsXY : (Test.make cosineSim X Y A B).s_AB = u ++ v := make_s_AB cosineSim X Y A B
  have hsYX : (Test.make cosineSim Y X A B).s_AB = v ++ u := make_s_AB cosineSim Y X A B
  have hwlen : (u ++ v).length = 2 * n := by rw [List.length_append, hu, hv]; omega
  have hw2 : (v ++ u).length = 2 * n := by rw [List.length_append, hu, hv]; omega
  have hr1 : maskSum (u ++ v) (List.range n) = u.sum := by
    have h := maskSum_range_append u v
    rw [hu] at h
    exact h
  have hr2 : maskSum (u ++ v) (List.range' n n) = v.sum := by
    have h := maskSum_range_drop u v
    rw [hu, hv] at h
    exact h
  have hr3 : maskSum (v ++ u) (List.range n) = v.sum := by
    have h := maskSum_range_append v u
    rw [hv] at h
    exact h
  have hr4 : maskSum (v ++ u) (List.range' n n) = u.sum := by
    have h := maskSum_range_drop v u
    rw [hu, hv] at h
    exact h
  have hrwXY : ∀ m, (Test.make cosineSim X Y A B).s_XAB m = maskSum (u ++ v) m := by
    intro m
    rw [Test.s_XAB, hsXY]
  have hrwYX : ∀ m, (Test.make cosineSim Y X A B).s_XAB m = maskSum (v ++ u) m := by
    intro m
    rw [Test.s_XAB, hsYX]
  refine ⟨?_, ?_, ?_⟩
  · have hstd : sampleStd (Test.make cosineSim Y X A B).s_AB =
        sampleStd (Test.make cosineSim X Y A B).s_AB := by
      rw [hsXY, hsYX]
      exact sampleStd_perm List.perm_append_comm
    rw [Test.effect_size, Test.effect_size, hstd, make_effect_size_num,
      make_effect_size_num, ← neg_div, neg_sub]
  · rw [Test.s_XYAB, Test.s_XYAB, hrwXY, hrwXY, hrwYX, hrwYX, hr1, hr2, hr3, hr4,
      neg_sub]
  · have hp1 := p_exact_val (Test.make cosineSim X Y A B) n n_samples draws hX hY hbranch
    have hp2 := p_exact_val (Test.make cosineSim Y X A B) n n_samples draws2 hY hX hbranch
    have hc1 : (combs (2 * n) n).countP (fun Xi =>
        decide ((Test.make cosineSim X Y A B).s_XAB (List.range n) <
          (Test.make cosineSim X Y A B).s_XAB Xi ∨
          (Test.make cosineSim X Y A B).s_XAB Xi =
          (Test.make cosineSim X Y A B).s_XAB (List.range n))) =
        (combs (2 * n) n).countP (fun m => decide (u.sum ≤ maskSum (u ++ v) m)) := by
      simp only [hrwXY, hr1]
      exact countP_or_eq_ge (u ++ v) u.sum (combs (2 * n) n)
    have hc2 : (combs (2 * n) n).countP (fun Xi =>
        decide ((Test.make cosineSim Y X A B).s_XAB (List.range n) <
          (Test.make cosineSim Y X A B).s_XAB Xi ∨
          (Test.make cosineSim Y X A B).s_XAB Xi =
          (Test.make cosineSim Y X A B).s_XAB (List.range n))) =
        (combs (2 * n) n).countP (fun m => decide (v.sum ≤ maskSum (v ++ u) m)) := by
      simp only [hrwYX, hr3]
      exact countP_or_eq_ge (v ++ u) v.sum (combs (2 * n) n)
    have hperm2 : (combs (2 * n) n).countP
        (fun m => decide (v.sum ≤ maskSum (v ++ u) m)) =
        (combs (2 * n) n).countP (fun m => decide (v.sum ≤ maskSum (u ++ v) m)) := by
      have h := countP_combs_perm (v ++ u) (u ++ v) List.perm_append_comm n
        (fun x => decide (v.sum ≤ x))
      rw [hw2, hwlen] at h
      exact h
    have hflip : (combs (2 * n) n).countP
        (fun m => decide (v.sum ≤ maskSum (u ++ v) m)) =
        (combs (2 * n) n).countP (fun m => decide (maskSum (u ++ v) m ≤ u.sum)) := by
      have h := countP_combs_compl (u ++ v) n hwlen (fun x => decide (v.sum ≤ x))
      rw [h]
      apply List.countP_congr
      intro m _
      have hT : (u ++ v).sum = u.sum + v.sum := List.sum_append
      simp only [decide_eq_true_eq]
      constructor
      · intro hh
        rw [hT] at hh
        linarith
      · intro hh
        rw [hT]
        linarith
    have hsplit := countP_ge_le_split (u ++ v) u.sum (combs (2 * n) n)
    have hlenC : (combs (2 * n) n).length = Nat.choose (2 * n) n := by
      simp [combs, List.length_sublistsLen, List.length_range]
    have heq : (Test.make cosineSim X Y A B).countEq n =
        (combs (2 * n) n).countP (fun m => decide (maskSum (u ++ v) m = u.sum)) := by
      have hXlen2 : (Test.make cosineSim X Y A B).X.length = n := hX
      rw [Test.countEq]
      have hobs : (Test.make cosineSim X Y A B).observed_s = u.sum := by
        rw [Test.observed_s, hXlen2, hrwXY, hr1]
      simp only [hrwXY, hobs]
    refine ⟨_, _, hp1, hp2, ?_⟩
    rw [hc1, hc2, hperm2, hflip, heq]
    rw [hlenC] at hsplit
    have hCpos : (0 : ℝ) < ((Nat.choose (2 * n) n : ℕ) : ℝ) := by
      exact_mod_cast Nat.choose_pos (show n ≤ 2 * n by omega)
    rw [div_add_div_same]
    have hab : (((combs (2 * n) n).countP (fun m => decide (u.sum ≤ maskSum (u ++ v) m)) +
        (combs (2 * n) n).countP (fun m => decide (maskSum (u ++ v) m ≤ u.sum)) : ℕ) : ℝ) =
        ((Nat.choose (2 * n) n + (combs (2 * n) n).countP
          (fun m => decide (maskSum (u ++ v) m = u.sum)) : ℕ) : ℝ) := by
      exact_mod_cast congrArg Nat.cast hsplit
    push_cast at hab ⊢
    rw [hab, add_div, div_self (ne_of_gt hCpos)]

/-- Witness for `swap_antisymmetry` at the concrete §8 scenario. -/
theorem swap_antisymmetry_witness :
    (Test.make cosineSim [[-1, 0], [0, -1]] [[1, 0], [0, 1]] [[1, 0]] [[-1, 0]]).effect_size =
      -(Test.make cosineSim [[1, 0], [0, 1]] [[-1, 0], [0, -1]] [[1, 0]] [[-1, 0]]).effect_size ∧
    (Test.make cosineSim [[-1, 0], [0, -1]] [[1, 0], [0, 1]] [[1, 0]] [[-1, 0]]).s_XYAB
        (List.range 2) (List.range' 2 2) =
      -((Test.make cosineSim [[1, 0], [0, 1]] [[-1, 0], [0, -1]] [[1, 0]] [[-1, 0]]).s_XYAB
        (List.range 2) (List.range' 2 2)) ∧
    ∃ pv pvs : ℝ,
      (Test.make cosineSim [[1, 0], [0, 1]] [[-1, 0], [0, -1]] [[1, 0]]
        [[-1, 0]]).p_nonparametric 10000 [] = some pv ∧
      (Test.make cosineSim [[-1, 0], [0, -1]] [[1, 0], [0, 1]] [[1, 0]]
        [[-1, 0]]).p_nonparametric 10000 [] = some pvs ∧
      pv + pvs = 1 + ((Test.make cosineSim [[1, 0], [0, 1]] [[-1, 0], [0, -1]] [[1, 0]]
        [[-1, 0]]).countEq 2 : ℝ) / ((Nat.choose (2 * 2) 2 : ℕ) : ℝ) :=
  swap_antisymmetry [[1, 0], [0, 1]] [[-1, 0], [0, -1]] [[1, 0]] [[-1, 0]] 2 2 10000 [] []
    rfl rfl (by simp) (by simp) (by simp) (by simp) (by norm_num)
    (by intro r hr; fin_cases hr <;> rfl) (by decide)

end Weat
